import Mathlib

/-!
# Verification of the indxdb transaction and savepoint engine

A shallow embedding of the `indxdb` crate (files `db.rs`, `tx.rs`, `sp.rs`,
`kv.rs`, `err.rs`): a transactional layer over an ordered key-value store,
with savepoint-based partial rollback, conditional (CAS) writes, and forward
and reverse range scans.

Keys and values are byte strings (`Vec<u8>` in the source), embedded as
`List Nat`.  The underlying IndexedDB object store is embedded as an
association list with unique keys; range scans sort by byte-lexicographic
key order, matching IndexedDB's ordering of binary keys.  Asynchronous store
operations are embedded as pure functions; the fallible underlying
commit/abort calls are embedded by passing their outcome as an argument.
-/

namespace Indxdb

/-- Embedding of `Key = Vec<u8>` from `kv.rs`, embedded as a list of bytes. -/
abbrev Key : Type := List Nat

/-- Embedding of `Val = Vec<u8>` from `kv.rs`, embedded as a list of bytes. -/
abbrev Val : Type := List Nat

/-- The error enum from `err.rs`. -/
inductive Error where
  | DbError : Error
  | TxError : Error
  | TxClosed : Error
  | TxNotWritable : Error
  | KeyAlreadyExists : Error
  | ValNotExpectedValue : Error
  | NoSavepoint : Error
  | IndexedDbError : String → Error
deriving DecidableEq

/-- The undo-record enum `Operation` from `sp.rs`. -/
inductive Operation where
  /-- Delete a key that was inserted. -/
  | DeleteKey : Key → Operation
  /-- Restore a key to its previous value. -/
  | RestoreValue : Key → Val → Operation
  /-- Restore a key that was deleted (insert it back). -/
  | RestoreDeleted : Key → Val → Operation
deriving DecidableEq

/-- The `Savepoint` struct from `sp.rs`: the operations that can be undone
to roll back to this savepoint. -/
structure Savepoint where
  operations : List Operation
deriving DecidableEq

/-- The underlying IndexedDB object store (`rexie::Store`), embedded as an
association list of key-value pairs with unique keys. -/
abbrev Store : Type := List (Key × Val)

/-- Point lookup in the underlying store. -/
def storeGet (s : Store) (k : Key) : Option Val :=
  match s with
  | [] => none
  | (k', v) :: rest => if k' = k then some v else storeGet rest k

/-- Point upsert in the underlying store (IndexedDB `put` with an explicit
key replaces any existing entry for that key). -/
def storePut (s : Store) (k : Key) (v : Val) : Store :=
  match s with
  | [] => [(k, v)]
  | (k', v') :: rest =>
      if k' = k then (k, v) :: rest else (k', v') :: storePut rest k v

/-- Point delete in the underlying store (deleting an absent key is a
no-op). -/
def storeDelete (s : Store) (k : Key) : Store :=
  match s with
  | [] => []
  | (k', v') :: rest =>
      if k' = k then storeDelete rest k else (k', v') :: storeDelete rest k

/-- Strict byte-lexicographic order on keys, the ordering IndexedDB uses
for binary keys. -/
def keyLt : Key → Key → Bool
  | [], [] => false
  | [], _ :: _ => true
  | _ :: _, [] => false
  | a :: as, b :: bs => if a < b then true else if b < a then false else keyLt as bs

/-- Insert a key-value pair into a list sorted by `keyLt`. -/
def insertSorted (p : Key × Val) : List (Key × Val) → List (Key × Val)
  | [] => [p]
  | q :: qs => if keyLt p.1 q.1 then p :: q :: qs else q :: insertSorted p qs

/-- Sort the store's entries into ascending byte-lexicographic key order,
the order in which an IndexedDB cursor visits them. -/
def sortByKey (l : List (Key × Val)) : List (Key × Val) :=
  List.foldr insertSorted [] l

/-- Embedding of `rexie::Direction`: cursor direction for range scans
(`Next` ascending, `Prev` descending). -/
inductive Direction where
  | Next : Direction
  | Prev : Direction
deriving DecidableEq

/-- A validated IndexedDB key range (`rexie::KeyRange` / `IDBKeyRange`). -/
structure KeyRange where
  lower : Key
  upper : Key
  lowerOpen : Bool
  upperOpen : Bool
deriving DecidableEq

/-- Modelled from the spec: `rexie::KeyRange::bound` delegates to the host
`IDBKeyRange.bound` primitive, which lives outside this repository.  Per the
W3C IndexedDB specification, `bound(lower, upper, lowerOpen, upperOpen)`
throws `DataError` when `lower` compares greater than `upper`, or when they
are equal and either endpoint is open; otherwise it yields the key range. -/
def keyRangeBound (lower upper : Key) (lowerOpen upperOpen : Bool) :
    Except String KeyRange :=
  if keyLt upper lower then Except.error "DataError"
  else if upper = lower && (lowerOpen || upperOpen) then Except.error "DataError"
  else Except.ok ⟨lower, upper, lowerOpen, upperOpen⟩

/-- Membership of a key in a key range. -/
def inRange (r : KeyRange) (k : Key) : Bool :=
  (if r.lowerOpen then keyLt r.lower k else !keyLt k r.lower) &&
  (if r.upperOpen then keyLt k r.upper else !keyLt r.upper k)

/-- Modelled from the spec: the underlying store's key-range iteration
(`rexie::Store::scan`), described by the spec as "key-range iteration in
ascending or descending order with a result-count limit".  A `Next` cursor
yields the in-range entries in ascending key order, truncated to the first
`limit`; a `Prev` cursor starts from the upper end, so it yields the last
`limit` in-range entries, in descending key order. -/
def storeScan (s : Store) (r : KeyRange) (limit : Nat) (dir : Direction) :
    List (Key × Val) :=
  let es := sortByKey (s.filter (fun p => inRange r p.1))
  match dir with
  | Direction.Next => es.take limit
  | Direction.Prev => es.reverse.take limit

/-- The `Transaction` struct from `tx.rs`.  The scoped `rexie::Transaction`
handle carries no data relevant here beyond its presence, so it is embedded
as `Option Unit` (it is `take`n exactly once, by commit or cancel). -/
structure Transaction where
  /-- Is the transaction complete? -/
  done : Bool
  /-- Is the transaction read+write? -/
  write : Bool
  /-- The underlying database store. -/
  datastore : Option Store
  /-- The underlying database transaction. -/
  transaction : Option Unit
  /-- Stack of savepoints for nested rollback support. -/
  savepoints : List Savepoint
  /-- Current undo operations since the last savepoint. -/
  operations : List Operation
deriving DecidableEq

namespace Transaction

/-- Embedding of `Transaction::new`. -/
def new (st : Store) (write : Bool) : Transaction :=
  { done := false
    write := write
    datastore := some st
    transaction := some ()
    savepoints := []
    operations := [] }

/-- The store behind `self.datastore.as_ref().unwrap()`.  The source only
ever unwraps it; `datastore` is `some` in every reachable state (it is set
at creation and never taken), so the default value is never consulted. -/
def getStore (tx : Transaction) : Store :=
  tx.datastore.getD []

/-- Embedding of `Transaction::closed`. -/
def closed (tx : Transaction) : Bool :=
  tx.done

/-- Embedding of `Transaction::cancel`.  The awaited result of the underlying
`abort()` call is passed in as `r`; the method returns its result paired
with the successor state (the state changes even when `r` is an error). -/
def cancel (tx : Transaction) (r : Except String Unit) :
    Except Error Unit × Transaction :=
  if tx.done then (Except.error Error.TxClosed, tx)
  else
    let tx' := { tx with done := true, transaction := none }
    match r with
    | Except.ok _ => (Except.ok (), tx')
    | Except.error e => (Except.error (Error.IndexedDbError e), tx')

/-- Embedding of `Transaction::commit`.  The awaited result of the underlying
`done()` call is passed in as `r`. -/
def commit (tx : Transaction) (r : Except String Unit) :
    Except Error Unit × Transaction :=
  if tx.done then (Except.error Error.TxClosed, tx)
  else if !tx.write then (Except.error Error.TxNotWritable, tx)
  else
    let tx' := { tx with done := true, transaction := none }
    match r with
    | Except.ok _ => (Except.ok (), tx')
    | Except.error e => (Except.error (Error.IndexedDbError e), tx')

/-- Embedding of `Transaction::exists` (named `existsKey` here). -/
def existsKey (tx : Transaction) (key : Key) : Except Error Bool :=
  if tx.done then Except.error Error.TxClosed
  else Except.ok (storeGet tx.getStore key).isSome

/-- Embedding of `Transaction::get`. -/
def get (tx : Transaction) (key : Key) : Except Error (Option Val) :=
  if tx.done then Except.error Error.TxClosed
  else
    match storeGet tx.getStore key with
    | some v => Except.ok (some v)
    | none => Except.ok none

/-- Embedding of `Transaction::set`.  The inner `self.get(key)` in the source rechecks
`done`, which is already known false on this path, so it is inlined as a
plain store lookup.  An error leaves the state unchanged (the source
returns before writing). -/
def set (tx : Transaction) (key : Key) (val : Val) : Except Error Transaction :=
  if tx.done then Except.error Error.TxClosed
  else if !tx.write then Except.error Error.TxNotWritable
  else
    let tx1 :=
      if !tx.savepoints.isEmpty || !tx.operations.isEmpty then
        match storeGet tx.getStore key with
        | some existingVal =>
            { tx with operations :=
                tx.operations ++ [Operation.RestoreValue key existingVal] }
        | none =>
            { tx with operations := tx.operations ++ [Operation.DeleteKey key] }
      else tx
    Except.ok { tx1 with datastore := some (storePut tx1.getStore key val) }

/-- Embedding of `Transaction::put`. -/
def put (tx : Transaction) (key : Key) (val : Val) : Except Error Transaction :=
  if tx.done then Except.error Error.TxClosed
  else if !tx.write then Except.error Error.TxNotWritable
  else
    match storeGet tx.getStore key with
    | none => tx.set key val
    | some _ => Except.error Error.KeyAlreadyExists

/-- Embedding of `Transaction::putc`. -/
def putc (tx : Transaction) (key : Key) (val : Val) (chk : Option Val) :
    Except Error Transaction :=
  if tx.done then Except.error Error.TxClosed
  else if !tx.write then Except.error Error.TxNotWritable
  else
    match storeGet tx.getStore key, chk with
    | some v, some w =>
        if v = w then tx.set key val else Except.error Error.ValNotExpectedValue
    | none, none => tx.set key val
    | _, _ => Except.error Error.ValNotExpectedValue

/-- Embedding of `Transaction::del`. -/
def del (tx : Transaction) (key : Key) : Except Error Transaction :=
  if tx.done then Except.error Error.TxClosed
  else if !tx.write then Except.error Error.TxNotWritable
  else
    let tx1 :=
      if !tx.savepoints.isEmpty || !tx.operations.isEmpty then
        match storeGet tx.getStore key with
        | some existingVal =>
            { tx with operations :=
                tx.operations ++ [Operation.RestoreDeleted key existingVal] }
        | none => tx
      else tx
    Except.ok { tx1 with datastore := some (storeDelete tx1.getStore key) }

/-- Embedding of `Transaction::delc`. -/
def delc (tx : Transaction) (key : Key) (chk : Option Val) :
    Except Error Transaction :=
  if tx.done then Except.error Error.TxClosed
  else if !tx.write then Except.error Error.TxNotWritable
  else
    match storeGet tx.getStore key, chk with
    | some v, some w =>
        if v = w then tx.del key else Except.error Error.ValNotExpectedValue
    | none, none => tx.del key
    | _, _ => Except.error Error.ValNotExpectedValue

/-- Embedding of `Transaction::keys` over the range `[lo, hi)` (the source's
`rng.start .. rng.end`): builds `KeyRange::bound(start, end, None,
Some(true))` and scans with `Direction::Next`. -/
def keys (tx : Transaction) (lo hi : Key) (limit : Nat) :
    Except Error (List Key) :=
  if tx.done then Except.error Error.TxClosed
  else
    match keyRangeBound lo hi false true with
    | Except.error e => Except.error (Error.IndexedDbError e)
    | Except.ok r =>
        Except.ok ((storeScan tx.getStore r limit Direction.Next).map Prod.fst)

/-- Embedding of `Transaction::keysr` over the range `[lo, hi)`: the source swaps the
bounds, building `KeyRange::bound(end, start, None, Some(true))`, and scans
with `Direction::Prev`. -/
def keysr (tx : Transaction) (lo hi : Key) (limit : Nat) :
    Except Error (List Key) :=
  if tx.done then Except.error Error.TxClosed
  else
    match keyRangeBound hi lo false true with
    | Except.error e => Except.error (Error.IndexedDbError e)
    | Except.ok r =>
        Except.ok ((storeScan tx.getStore r limit Direction.Prev).map Prod.fst)

/-- Embedding of `Transaction::scan` over the range `[lo, hi)`. -/
def scan (tx : Transaction) (lo hi : Key) (limit : Nat) :
    Except Error (List (Key × Val)) :=
  if tx.done then Except.error Error.TxClosed
  else
    match keyRangeBound lo hi false true with
    | Except.error e => Except.error (Error.IndexedDbError e)
    | Except.ok r => Except.ok (storeScan tx.getStore r limit Direction.Next)

/-- Embedding of `Transaction::scanr` over the range `[lo, hi)`: like `keysr`, the source
swaps the bounds before scanning with `Direction::Prev`. -/
def scanr (tx : Transaction) (lo hi : Key) (limit : Nat) :
    Except Error (List (Key × Val)) :=
  if tx.done then Except.error Error.TxClosed
  else
    match keyRangeBound hi lo false true with
    | Except.error e => Except.error (Error.IndexedDbError e)
    | Except.ok r => Except.ok (storeScan tx.getStore r limit Direction.Prev)

/-- Embedding of `Transaction::set_savepoint`: pushes the current operation log onto the
savepoint stack (`std::mem::take` moves it out, leaving the log empty). -/
def set_savepoint (tx : Transaction) : Except Error Transaction :=
  if tx.done then Except.error Error.TxClosed
  else if !tx.write then Except.error Error.TxNotWritable
  else
    Except.ok { tx with
      savepoints := tx.savepoints ++ [⟨tx.operations⟩]
      operations := [] }

/-- One iteration of the undo-replay loop in
`Transaction::rollback_to_savepoint`. -/
def applyUndoOne (st : Store) (op : Operation) : Store :=
  match op with
  | Operation.DeleteKey key => storeDelete st key
  | Operation.RestoreValue key val => storePut st key val
  | Operation.RestoreDeleted key val => storePut st key val

/-- The undo-replay loop: `for op in self.operations.iter().rev()`, i.e.
the operations are applied in reverse insertion order. -/
def applyUndo (st : Store) (ops : List Operation) : Store :=
  List.foldl applyUndoOne st ops.reverse

/-- Embedding of `Transaction::rollback_to_savepoint`: pops the most recent savepoint,
replays the current operation log in reverse insertion order against the
store, then restores the popped savepoint's operations as the current
log. -/
def rollback_to_savepoint (tx : Transaction) : Except Error Transaction :=
  if tx.done then Except.error Error.TxClosed
  else if !tx.write then Except.error Error.TxNotWritable
  else
    match tx.savepoints.getLast? with
    | none => Except.error Error.NoSavepoint
    | some savepoint =>
        Except.ok { tx with
          datastore := some (applyUndo tx.getStore tx.operations)
          savepoints := tx.savepoints.dropLast
          operations := savepoint.operations }

end Transaction

/-- A JavaScript value as seen by the byte conversion in `kv.rs`: either an
`ArrayBuffer` (whose bytes are read through a fresh `Uint8Array` view), a
`Uint8Array` (read directly), or any other kind of value. -/
inductive JsValue where
  | arrayBuffer : List Nat → JsValue
  | uint8Array : List Nat → JsValue
  | other : JsValue
deriving DecidableEq

/-- Embedding of `impl Convert<Vec<u8>> for JsValue` from `kv.rs`: the two
`has_type` tests become a match on the constructor; every value that is
neither an `ArrayBuffer` nor a `Uint8Array` falls through to `vec![]`. -/
def JsValue.convert : JsValue → Val
  | JsValue.arrayBuffer b => b
  | JsValue.uint8Array b => b
  | JsValue.other => []

/-- The tail of `Transaction::get` applied to the underlying store's raw
result: after the `done` check, a present raw value is converted to bytes
and wrapped in `Some`, an absent one yields `None`. -/
def getRawResult (done : Bool) (res : Option JsValue) : Except Error (Option Val) :=
  if done then Except.error Error.TxClosed
  else
    match res with
    | some v => Except.ok (some v.convert)
    | none => Except.ok none

/-- A call on a `Transaction`, with every argument it takes; the underlying
store outcome consumed by `commit`/`cancel` is carried in the constructor. -/
inductive Op where
  | existsKey : Key → Op
  | get : Key → Op
  | set : Key → Val → Op
  | put : Key → Val → Op
  | putc : Key → Val → Option Val → Op
  | del : Key → Op
  | delc : Key → Option Val → Op
  | keys : Key → Key → Nat → Op
  | keysr : Key → Key → Nat → Op
  | scan : Key → Key → Nat → Op
  | scanr : Key → Key → Nat → Op
  | set_savepoint : Op
  | rollback_to_savepoint : Op
  | commit : Except String Unit → Op
  | cancel : Except String Unit → Op

/-- The state transition made by one call: read-only calls and calls that
fail leave the state unchanged (every error path in the source returns
before mutating `self`), successful mutating calls move to the successor
state. -/
def applyOp (tx : Transaction) (op : Op) : Transaction :=
  match op with
  | Op.existsKey _ => tx
  | Op.get _ => tx
  | Op.set k v =>
      match tx.set k v with
      | Except.ok tx' => tx'
      | Except.error _ => tx
  | Op.put k v =>
      match tx.put k v with
      | Except.ok tx' => tx'
      | Except.error _ => tx
  | Op.putc k v chk =>
      match tx.putc k v chk with
      | Except.ok tx' => tx'
      | Except.error _ => tx
  | Op.del k =>
      match tx.del k with
      | Except.ok tx' => tx'
      | Except.error _ => tx
  | Op.delc k chk =>
      match tx.delc k chk with
      | Except.ok tx' => tx'
      | Except.error _ => tx
  | Op.keys _ _ _ => tx
  | Op.keysr _ _ _ => tx
  | Op.scan _ _ _ => tx
  | Op.scanr _ _ _ => tx
  | Op.set_savepoint =>
      match tx.set_savepoint with
      | Except.ok tx' => tx'
      | Except.error _ => tx
  | Op.rollback_to_savepoint =>
      match tx.rollback_to_savepoint with
      | Except.ok tx' => tx'
      | Except.error _ => tx
  | Op.commit r => (tx.commit r).2
  | Op.cancel r => (tx.cancel r).2

/-- A sequence of calls, applied left to right. -/
def applyOps (tx : Transaction) (ops : List Op) : Transaction :=
  List.foldl applyOp tx ops

/-- The write/delete calls a caller can issue between a `set_savepoint` and
the matching `rollback_to_savepoint`. -/
inductive WriteOp where
  | set : Key → Val → WriteOp
  | put : Key → Val → WriteOp
  | putc : Key → Val → Option Val → WriteOp
  | del : Key → WriteOp
  | delc : Key → Option Val → WriteOp

/-- The state transition made by one write call (failing calls leave the
state unchanged, exactly as in `applyOp`). -/
def applyWriteOp (tx : Transaction) (w : WriteOp) : Transaction :=
  match w with
  | WriteOp.set k v =>
      match tx.set k v with
      | Except.ok tx' => tx'
      | Except.error _ => tx
  | WriteOp.put k v =>
      match tx.put k v with
      | Except.ok tx' => tx'
      | Except.error _ => tx
  | WriteOp.putc k v chk =>
      match tx.putc k v chk with
      | Except.ok tx' => tx'
      | Except.error _ => tx
  | WriteOp.del k =>
      match tx.del k with
      | Except.ok tx' => tx'
      | Except.error _ => tx
  | WriteOp.delc k chk =>
      match tx.delc k chk with
      | Except.ok tx' => tx'
      | Except.error _ => tx

/-- A sequence of write calls, applied left to right. -/
def applyWriteOps (tx : Transaction) (ws : List WriteOp) : Transaction :=
  List.foldl applyWriteOp tx ws

section StoreLemmas

/-- Reading back after a put: the written key now holds the new value and
every other key is untouched. -/
theorem storeGet_storePut (s : Store) (k : Key) (v : Val) (k' : Key) :
    storeGet (storePut s k v) k' = if k = k' then some v else storeGet s k' := by
  induction s with
  | nil =>
      by_cases h : k = k' <;> simp [storePut, storeGet, h]
  | cons p rest ih =>
      obtain ⟨k2, v2⟩ := p
      by_cases h2 : k2 = k
      · subst h2
        by_cases h : k2 = k' <;> simp [storePut, storeGet, h]
      · by_cases h3 : k2 = k' <;> by_cases h : k = k' <;>
          simp_all [storePut, storeGet]

/-- Reading back after a delete: the deleted key is absent and every other
key is untouched. -/
theorem storeGet_storeDelete (s : Store) (k : Key) (k' : Key) :
    storeGet (storeDelete s k) k' = if k = k' then none else storeGet s k' := by
  induction s with
  | nil =>
      by_cases h : k = k' <;> simp [storeDelete, storeGet, h]
  | cons p rest ih =>
      obtain ⟨k2, v2⟩ := p
      by_cases h2 : k2 = k
      · subst h2
        by_cases h : k2 = k' <;> simp_all [storeDelete, storeGet]
      · by_cases h3 : k2 = k' <;> by_cases h : k = k' <;>
          simp_all [storeDelete, storeGet]

end StoreLemmas

section UndoLemmas

open Transaction

/-- Replaying an empty log changes nothing. -/
theorem applyUndo_nil (st : Store) : applyUndo st [] = st := rfl

/-- Replaying a log with a freshly appended record applies that record
first (the loop walks the log in reverse insertion order). -/
theorem applyUndo_append_one (st : Store) (ops : List Operation) (u : Operation) :
    applyUndo st (ops ++ [u]) = applyUndo (applyUndoOne st u) ops := by
  simp [applyUndo, List.reverse_append]

/-- Pointwise-equal stores stay pointwise equal after one undo record. -/
theorem applyUndoOne_congr (st st' : Store)
    (h : ∀ k, storeGet st k = storeGet st' k) (op : Operation) :
    ∀ k, storeGet (applyUndoOne st op) k = storeGet (applyUndoOne st' op) k := by
  cases op <;> intro k <;>
    simp [applyUndoOne, storeGet_storePut, storeGet_storeDelete, h k]

/-- Pointwise-equal stores stay pointwise equal after replaying a log. -/
theorem applyUndo_congr (ops : List Operation) (st st' : Store)
    (h : ∀ k, storeGet st k = storeGet st' k) :
    ∀ k, storeGet (applyUndo st ops) k = storeGet (applyUndo st' ops) k := by
  induction ops generalizing st st' with
  | nil => exact h
  | cons op rest ih =>
      have hcons : ∀ (t : Store), applyUndo t (op :: rest) =
          applyUndoOne (applyUndo t rest) op := by
        intro t
        simp [applyUndo, List.foldl_append]
      intro k
      rw [hcons st, hcons st']
      exact applyUndoOne_congr _ _ (ih st st' h) op k

end UndoLemmas

section FrameLemmas

open Transaction

/-- A successful `set` changes only the store and the operation log. -/
theorem set_frame {tx tx' : Transaction} {k : Key} {v : Val}
    (h : tx.set k v = Except.ok tx') :
    tx'.done = tx.done ∧ tx'.write = tx.write ∧
      tx'.transaction = tx.transaction ∧ tx'.savepoints = tx.savepoints := by
  unfold Transaction.set at h
  split at h
  · exact absurd h (by simp)
  · split at h
    · exact absurd h (by simp)
    · split at h
      · split at h <;> (injection h with h; subst h; simp)
      · injection h with h; subst h; simp

/-- A successful `del` changes only the store and the operation log. -/
theorem del_frame {tx tx' : Transaction} {k : Key}
    (h : tx.del k = Except.ok tx') :
    tx'.done = tx.done ∧ tx'.write = tx.write ∧
      tx'.transaction = tx.transaction ∧ tx'.savepoints = tx.savepoints := by
  unfold Transaction.del at h
  split at h
  · exact absurd h (by simp)
  · split at h
    · exact absurd h (by simp)
    · split at h
      · split at h <;> (injection h with h; subst h; simp)
      · injection h with h; subst h; simp

/-- A successful `put` changes only the store and the operation log. -/
theorem put_frame {tx tx' : Transaction} {k : Key} {v : Val}
    (h : tx.put k v = Except.ok tx') :
    tx'.done = tx.done ∧ tx'.write = tx.write ∧
      tx'.transaction = tx.transaction ∧ tx'.savepoints = tx.savepoints := by
  unfold Transaction.put at h
  split at h
  · exact absurd h (by simp)
  · split at h
    · exact absurd h (by simp)
    · split at h
      · exact set_frame h
      · exact absurd h (by simp)

/-- A successful `putc` changes only the store and the operation log. -/
theorem putc_frame {tx tx' : Transaction} {k : Key} {v : Val} {chk : Option Val}
    (h : tx.putc k v chk = Except.ok tx') :
    tx'.done = tx.done ∧ tx'.write = tx.write ∧
      tx'.transaction = tx.transaction ∧ tx'.savepoints = tx.savepoints := by
  unfold Transaction.putc at h
  split at h
  · exact absurd h (by simp)
  · split at h
    · exact absurd h (by simp)
    · split at h
      · split at h
        · exact set_frame h
        · exact absurd h (by simp)
      · exact set_frame h
      · exact absurd h (by simp)

/-- A successful `delc` changes only the store and the operation log. -/
theorem delc_frame {tx tx' : Transaction} {k : Key} {chk : Option Val}
    (h : tx.delc k chk = Except.ok tx') :
    tx'.done = tx.done ∧ tx'.write = tx.write ∧
      tx'.transaction = tx.transaction ∧ tx'.savepoints = tx.savepoints := by
  unfold Transaction.delc at h
  split at h
  · exact absurd h (by simp)
  · split at h
    · exact absurd h (by simp)
    · split at h
      · split at h
        · exact del_frame h
        · exact absurd h (by simp)
      · exact del_frame h
      · exact absurd h (by simp)

end FrameLemmas

section RollbackInvariant

open Transaction

/-- Unfolding `getStore` on an explicitly built transaction record. -/
theorem getStore_mk (d w : Bool) (ds : Option Store) (t : Option Unit)
    (sps : List Savepoint) (ops : List Operation) :
    Transaction.getStore (Transaction.mk d w ds t sps ops) = ds.getD [] := rfl

/-- Folding the unwrapped datastore back into `getStore`. -/
theorem getD_datastore (tx : Transaction) :
    tx.datastore.getD [] = tx.getStore := rfl

/-- Characterization of a `set` on an open writable transaction whose
savepoint stack is non-empty: an undo record for the previous state of the
key is appended and the key is written. -/
theorem set_eq_of_active (tx : Transaction) (hd : tx.done = false)
    (hw : tx.write = true)
    (hcond : (!tx.savepoints.isEmpty || !tx.operations.isEmpty) = true)
    (k : Key) (v : Val) :
    tx.set k v = Except.ok { tx with
      operations := tx.operations ++
        [match storeGet tx.getStore k with
         | some old => Operation.RestoreValue k old
         | none => Operation.DeleteKey k]
      datastore := some (storePut tx.getStore k v) } := by
  cases hget : storeGet tx.getStore k <;>
    simp [Transaction.set, hd, hw, hcond, hget, getStore_mk, getD_datastore]

/-- Characterization of a `del` on an open writable transaction whose
savepoint stack is non-empty: if the key is present an undo record holding
its value is appended, and the key is deleted. -/
theorem del_eq_of_active (tx : Transaction) (hd : tx.done = false)
    (hw : tx.write = true)
    (hcond : (!tx.savepoints.isEmpty || !tx.operations.isEmpty) = true)
    (k : Key) :
    tx.del k = Except.ok { tx with
      operations := tx.operations ++
        (match storeGet tx.getStore k with
         | some old => [Operation.RestoreDeleted k old]
         | none => [])
      datastore := some (storeDelete tx.getStore k) } := by
  cases hget : storeGet tx.getStore k <;>
    simp [Transaction.del, hd, hw, hcond, hget, getStore_mk, getD_datastore]

/-- The invariant tying a transaction's current state to the store `s0` it
had when the innermost savepoint was taken: the transaction is open and
writable, its savepoint stack is the fixed `sps`, and replaying its current
operation log against its current store yields `s0` again (pointwise). -/
def RecInv (s0 : Store) (sps : List Savepoint) (tx : Transaction) : Prop :=
  tx.done = false ∧ tx.write = true ∧ tx.savepoints = sps ∧
    ∀ k, storeGet (applyUndo tx.getStore tx.operations) k = storeGet s0 k

/-- Undoing the record a `set` appends restores the store it overwrote. -/
theorem undoOne_set (tx : Transaction) (k : Key) (v : Val) :
    ∀ k'', storeGet
      (applyUndoOne (storePut tx.getStore k v)
        (match storeGet tx.getStore k with
         | some old => Operation.RestoreValue k old
         | none => Operation.DeleteKey k)) k'' =
      storeGet tx.getStore k'' := by
  intro k''
  cases hget : storeGet tx.getStore k with
  | some old =>
      by_cases hk : k = k''
      · subst hk
        simp [applyUndoOne, storeGet_storePut, hget]
      · simp [applyUndoOne, storeGet_storePut, hk]
  | none =>
      by_cases hk : k = k''
      · subst hk
        simp [applyUndoOne, storeGet_storeDelete, hget]
      · simp [applyUndoOne, storeGet_storeDelete, storeGet_storePut, hk]

/-- A `set` preserves the rollback invariant when a savepoint is active. -/
theorem recInv_set {s0 : Store} {sps : List Savepoint} (hsp : sps ≠ [])
    {tx : Transaction} (h : RecInv s0 sps tx) (k : Key) (v : Val) :
    ∃ tx', tx.set k v = Except.ok tx' ∧ RecInv s0 sps tx' := by
  obtain ⟨hd, hw, hs, hpw⟩ := h
  obtain ⟨sp0, sps', hsps⟩ := List.exists_cons_of_ne_nil hsp
  have hcond : (!tx.savepoints.isEmpty || !tx.operations.isEmpty) = true := by
    rw [hs, hsps]; rfl
  refine ⟨_, set_eq_of_active tx hd hw hcond k v, hd, hw, hs, ?_⟩
  intro k'
  have hx : storeGet (applyUndo (storePut tx.getStore k v)
      (tx.operations ++
        [match storeGet tx.getStore k with
         | some old => Operation.RestoreValue k old
         | none => Operation.DeleteKey k])) k' = storeGet s0 k' := by
    rw [applyUndo_append_one]
    rw [applyUndo_congr tx.operations _ tx.getStore (undoOne_set tx k v) k']
    exact hpw k'
  exact hx

/-- A `del` preserves the rollback invariant when a savepoint is active. -/
theorem recInv_del {s0 : Store} {sps : List Savepoint} (hsp : sps ≠ [])
    {tx : Transaction} (h : RecInv s0 sps tx) (k : Key) :
    ∃ tx', tx.del k = Except.ok tx' ∧ RecInv s0 sps tx' := by
  obtain ⟨hd, hw, hs, hpw⟩ := h
  obtain ⟨sp0, sps', hsps⟩ := List.exists_cons_of_ne_nil hsp
  have hcond : (!tx.savepoints.isEmpty || !tx.operations.isEmpty) = true := by
    rw [hs, hsps]; rfl
  refine ⟨_, del_eq_of_active tx hd hw hcond k, hd, hw, hs, ?_⟩
  intro k'
  have hx : storeGet (applyUndo (storeDelete tx.getStore k)
      (tx.operations ++
        (match storeGet tx.getStore k with
         | some old => [Operation.RestoreDeleted k old]
         | none => []))) k' = storeGet s0 k' := by
    cases hget : storeGet tx.getStore k with
    | some old =>
        show storeGet (applyUndo (storeDelete tx.getStore k)
            (tx.operations ++ [Operation.RestoreDeleted k old])) k' =
          storeGet s0 k'
        rw [applyUndo_append_one]
        have hu : ∀ k'', storeGet
            (applyUndoOne (storeDelete tx.getStore k)
              (Operation.RestoreDeleted k old)) k'' =
            storeGet tx.getStore k'' := by
          intro k''
          by_cases hk : k = k''
          · subst hk
            simp [applyUndoOne, storeGet_storePut, hget]
          · simp [applyUndoOne, storeGet_storePut, storeGet_storeDelete, hk]
        rw [applyUndo_congr tx.operations _ tx.getStore hu k']
        exact hpw k'
    | none =>
        show storeGet (applyUndo (storeDelete tx.getStore k)
            (tx.operations ++ [])) k' = storeGet s0 k'
        rw [List.append_nil]
        have hu : ∀ k'', storeGet (storeDelete tx.getStore k) k'' =
            storeGet tx.getStore k'' := by
          intro k''
          by_cases hk : k = k''
          · subst hk
            simp [storeGet_storeDelete, hget]
          · simp [storeGet_storeDelete, hk]
        rw [applyUndo_congr tx.operations _ tx.getStore hu k']
        exact hpw k'
  exact hx

/-- Every write call — successful or failed — preserves the rollback
invariant when a savepoint is active. -/
theorem recInv_writeOp {s0 : Store} {sps : List Savepoint} (hsp : sps ≠ [])
    {tx : Transaction} (h : RecInv s0 sps tx) (w : WriteOp) :
    RecInv s0 sps (applyWriteOp tx w) := by
  obtain ⟨hd, hw, hs, hpw⟩ := h
  cases w with
  | set k v =>
      obtain ⟨tx', hok, hinv⟩ := recInv_set hsp ⟨hd, hw, hs, hpw⟩ k v
      simpa [applyWriteOp, hok] using hinv
  | put k v =>
      cases hget : storeGet tx.getStore k with
      | some w0 =>
          have herr : tx.put k v = Except.error Error.KeyAlreadyExists := by
            simp [Transaction.put, hd, hw, hget]
          simpa [applyWriteOp, herr] using ⟨hd, hw, hs, hpw⟩
      | none =>
          have hput : tx.put k v = tx.set k v := by
            simp [Transaction.put, hd, hw, hget]
          obtain ⟨tx', hok, hinv⟩ := recInv_set hsp ⟨hd, hw, hs, hpw⟩ k v
          simpa [applyWriteOp, hput, hok] using hinv
  | putc k v chk =>
      cases hget : storeGet tx.getStore k with
      | some v0 =>
          cases chk with
          | some w0 =>
              by_cases hvw : v0 = w0
              · have hputc : tx.putc k v (some w0) = tx.set k v := by
                  simp [Transaction.putc, hd, hw, hget, hvw]
                obtain ⟨tx', hok, hinv⟩ := recInv_set hsp ⟨hd, hw, hs, hpw⟩ k v
                simpa [applyWriteOp, hputc, hok] using hinv
              · have hputc : tx.putc k v (some w0) =
                    Except.error Error.ValNotExpectedValue := by
                  simp [Transaction.putc, hd, hw, hget, hvw]
                simpa [applyWriteOp, hputc] using ⟨hd, hw, hs, hpw⟩
          | none =>
              have hputc : tx.putc k v none =
                  Except.error Error.ValNotExpectedValue := by
                simp [Transaction.putc, hd, hw, hget]
              simpa [applyWriteOp, hputc] using ⟨hd, hw, hs, hpw⟩
      | none =>
          cases chk with
          | some w0 =>
              have hputc : tx.putc k v (some w0) =
                  Except.error Error.ValNotExpectedValue := by
                simp [Transaction.putc, hd, hw, hget]
              simpa [applyWriteOp, hputc] using ⟨hd, hw, hs, hpw⟩
          | none =>
              have hputc : tx.putc k v none = tx.set k v := by
                simp [Transaction.putc, hd, hw, hget]
              obtain ⟨tx', hok, hinv⟩ := recInv_set hsp ⟨hd, hw, hs, hpw⟩ k v
              simpa [applyWriteOp, hputc, hok] using hinv
  | del k =>
      obtain ⟨tx', hok, hinv⟩ := recInv_del hsp ⟨hd, hw, hs, hpw⟩ k
      simpa [applyWriteOp, hok] using hinv
  | delc k chk =>
      cases hget : storeGet tx.getStore k with
      | some v0 =>
          cases chk with
          | some w0 =>
              by_cases hvw : v0 = w0
              · have hdelc : tx.delc k (some w0) = tx.del k := by
                  simp [Transaction.delc, hd, hw, hget, hvw]
                obtain ⟨tx', hok, hinv⟩ := recInv_del hsp ⟨hd, hw, hs, hpw⟩ k
                simpa [applyWriteOp, hdelc, hok] using hinv
              · have hdelc : tx.delc k (some w0) =
                    Except.error Error.ValNotExpectedValue := by
                  simp [Transaction.delc, hd, hw, hget, hvw]
                simpa [applyWriteOp, hdelc] using ⟨hd, hw, hs, hpw⟩
          | none =>
              have hdelc : tx.delc k none =
                  Except.error Error.ValNotExpectedValue := by
                simp [Transaction.delc, hd, hw, hget]
              simpa [applyWriteOp, hdelc] using ⟨hd, hw, hs, hpw⟩
      | none =>
          cases chk with
          | some w0 =>
              have hdelc : tx.delc k (some w0) =
                  Except.error Error.ValNotExpectedValue := by
                simp [Transaction.delc, hd, hw, hget]
              simpa [applyWriteOp, hdelc] using ⟨hd, hw, hs, hpw⟩
          | none =>
              have hdelc : tx.delc k none = tx.del k := by
                simp [Transaction.delc, hd, hw, hget]
              obtain ⟨tx', hok, hinv⟩ := recInv_del hsp ⟨hd, hw, hs, hpw⟩ k
              simpa [applyWriteOp, hdelc, hok] using hinv

/-- Any sequence of write calls preserves the rollback invariant when a
savepoint is active. -/
theorem recInv_writeOps {s0 : Store} {sps : List Savepoint} (hsp : sps ≠ [])
    {tx : Transaction} (h : RecInv s0 sps tx) (ws : List WriteOp) :
    RecInv s0 sps (applyWriteOps tx ws) := by
  induction ws generalizing tx with
  | nil => exact h
  | cons w rest ih =>
      exact ih (recInv_writeOp hsp h w)

end RollbackInvariant

section Claim1

open Transaction

/-- Claim C1: for every open writable transaction, any sequence of
set/put/putc/del/delc calls performed after `set_savepoint()`, and any key,
calling `rollback_to_savepoint()` pops the most recent savepoint, replays
the current operation log in reverse insertion order, and restores the
underlying store to exactly the key/value state it had at the moment the
matching `set_savepoint()` was called: the rollback succeeds, the resulting
store agrees with the store at savepoint time on every key, and the
savepoint stack and operation log return to their pre-`set_savepoint`
values. -/
theorem claim_C1_rollback_restores_savepoint_state
    (tx tx1 : Transaction) (ws : List WriteOp)
    (hd : tx.done = false) (hw : tx.write = true)
    (h1 : tx.set_savepoint = Except.ok tx1) :
    ∃ tx3, (applyWriteOps tx1 ws).rollback_to_savepoint = Except.ok tx3 ∧
      (∀ k, storeGet tx3.getStore k = storeGet tx1.getStore k) ∧
      tx1.getStore = tx.getStore ∧
      tx3.savepoints = tx.savepoints ∧
      tx3.operations = tx.operations := by
  have h1' : tx1 = { tx with
      savepoints := tx.savepoints ++ [⟨tx.operations⟩]
      operations := [] } := by
    have heq : tx.set_savepoint = Except.ok { tx with
        savepoints := tx.savepoints ++ [⟨tx.operations⟩]
        operations := [] } := by
      simp [Transaction.set_savepoint, hd, hw]
    rw [heq] at h1
    injection h1 with h1
    exact h1.symm
  subst h1'
  have hsp : tx.savepoints ++ [(⟨tx.operations⟩ : Savepoint)] ≠ [] := by
    simp
  have hinv0 : RecInv tx.getStore (tx.savepoints ++ [⟨tx.operations⟩])
      { tx with
        savepoints := tx.savepoints ++ [⟨tx.operations⟩]
        operations := [] } :=
    ⟨hd, hw, rfl, fun _ => rfl⟩
  have hinv := recInv_writeOps hsp hinv0 ws
  obtain ⟨hd2, hw2, hs2, hpw2⟩ := hinv
  have hlast : (applyWriteOps { tx with
      savepoints := tx.savepoints ++ [⟨tx.operations⟩]
      operations := [] } ws).savepoints.getLast? =
      some ⟨tx.operations⟩ := by
    rw [hs2]
    simp
  have hrb : (applyWriteOps { tx with
      savepoints := tx.savepoints ++ [⟨tx.operations⟩]
      operations := [] } ws).rollback_to_savepoint =
      Except.ok { applyWriteOps { tx with
          savepoints := tx.savepoints ++ [⟨tx.operations⟩]
          operations := [] } ws with
        datastore := some (applyUndo
          (applyWriteOps { tx with
            savepoints := tx.savepoints ++ [⟨tx.operations⟩]
            operations := [] } ws).getStore
          (applyWriteOps { tx with
            savepoints := tx.savepoints ++ [⟨tx.operations⟩]
            operations := [] } ws).operations)
        savepoints := (applyWriteOps { tx with
          savepoints := tx.savepoints ++ [⟨tx.operations⟩]
          operations := [] } ws).savepoints.dropLast
        operations := tx.operations } := by
    simp [Transaction.rollback_to_savepoint, hd2, hw2, hlast]
  refine ⟨_, hrb, ?_, rfl, ?_, rfl⟩
  · intro k
    exact hpw2 k
  · show (applyWriteOps { tx with
        savepoints := tx.savepoints ++ [⟨tx.operations⟩]
        operations := [] } ws).savepoints.dropLast = tx.savepoints
    rw [hs2]
    simp

/-- Concrete instantiation of claim C1: starting from a fresh writable
transaction over a one-entry store, a savepoint followed by an overwrite
and a delete rolls back to the original store. -/
theorem claim_C1_witness :
    (Transaction.new [([0], [5])] true).done = false ∧
    (Transaction.new [([0], [5])] true).write = true ∧
    (Transaction.new [([0], [5])] true).set_savepoint =
      Except.ok (Transaction.mk false true (some [([0], [5])]) (some ())
        [⟨[]⟩] []) ∧
    ∃ tx3, (applyWriteOps (Transaction.mk false true (some [([0], [5])])
        (some ()) [⟨[]⟩] [])
        [WriteOp.set [0] [9], WriteOp.del [0]]).rollback_to_savepoint =
        Except.ok tx3 ∧
      (∀ k, storeGet tx3.getStore k =
        storeGet (Transaction.mk false true (some [([0], [5])]) (some ())
          [⟨[]⟩] []).getStore k) ∧
      (Transaction.mk false true (some [([0], [5])]) (some ())
        [⟨[]⟩] []).getStore = (Transaction.new [([0], [5])] true).getStore ∧
      tx3.savepoints = (Transaction.new [([0], [5])] true).savepoints ∧
      tx3.operations = (Transaction.new [([0], [5])] true).operations :=
  ⟨rfl, rfl, rfl,
    claim_C1_rollback_restores_savepoint_state
      (Transaction.new [([0], [5])] true)
      (Transaction.mk false true (some [([0], [5])]) (some ()) [⟨[]⟩] [])
      [WriteOp.set [0] [9], WriteOp.del [0]]
      rfl rfl rfl⟩

end Claim1

section OpenWritableHelpers

open Transaction

/-- A `set` on an open writable transaction always succeeds. -/
theorem set_ok (tx : Transaction) (hd : tx.done = false) (hw : tx.write = true)
    (k : Key) (v : Val) : ∃ tx', tx.set k v = Except.ok tx' := by
  cases hcond : (!tx.savepoints.isEmpty || !tx.operations.isEmpty) with
  | true => exact ⟨_, set_eq_of_active tx hd hw hcond k v⟩
  | false =>
      exact ⟨{ tx with datastore := some (storePut tx.getStore k v) },
        by simp [Transaction.set, hd, hw, hcond]⟩

/-- A `del` on an open writable transaction always succeeds. -/
theorem del_ok (tx : Transaction) (hd : tx.done = false) (hw : tx.write = true)
    (k : Key) : ∃ tx', tx.del k = Except.ok tx' := by
  cases hcond : (!tx.savepoints.isEmpty || !tx.operations.isEmpty) with
  | true => exact ⟨_, del_eq_of_active tx hd hw hcond k⟩
  | false =>
      exact ⟨{ tx with datastore := some (storeDelete tx.getStore k) },
        by simp [Transaction.del, hd, hw, hcond]⟩

end OpenWritableHelpers

section Claim2

open Transaction

/-- Claim C2 (divergence witness): the source's `keysr`/`scanr` swap the
range bounds when building the key range, so on the spec's own example
store (`a=1, b=2, c=3, d=4`) a reverse scan of the proper range
`[a, d) = [[97], [100])` constructs `bound(end, start)` with
`lower > upper`, which the underlying key-range primitive rejects:
both calls fail with `IndexedDbError "DataError"` instead of returning the
last two entries of the range in descending order.  An inverted input
range `[[100], [97])` is the one shape the swapped bounds accept, and it
returns a non-empty result rather than the empty sequence.  The final
conjunct shows that scanning the unswapped range `[[97], [100])` with a
descending cursor yields exactly the spec's expected answer
`[(c,3),(b,2)]`, locating the bug in the bound swap alone. -/
theorem claim_C2_reverse_scan_rejects_proper_range :
    (Transaction.new [([97], [1]), ([98], [2]), ([99], [3]), ([100], [4])]
        true).scanr [97] [100] 2 =
      Except.error (Error.IndexedDbError "DataError") ∧
    (Transaction.new [([97], [1]), ([98], [2]), ([99], [3]), ([100], [4])]
        true).keysr [97] [100] 2 =
      Except.error (Error.IndexedDbError "DataError") ∧
    (Transaction.new [([97], [1]), ([98], [2]), ([99], [3]), ([100], [4])]
        true).keysr [100] [97] 10 = Except.ok [[99], [98], [97]] ∧
    storeScan (Transaction.new [([97], [1]), ([98], [2]), ([99], [3]),
        ([100], [4])] true).getStore
      ⟨[97], [100], false, true⟩ 2 Direction.Prev =
      [([99], [3]), ([98], [2])] :=
  ⟨rfl, rfl, rfl, rfl⟩

end Claim2

section Claim3

open Transaction

/-- The savepoint stack and operation log of a transaction result, when the
call succeeded. -/
def undoStateAfter (r : Except Error Transaction) :
    Option (List Savepoint × List Operation) :=
  match r with
  | Except.ok tx => some (tx.savepoints, tx.operations)
  | Except.error _ => none

/-- Counterexample to claim C3: on a fresh writable transaction,
`set_savepoint(); set; rollback_to_savepoint()` pops the only savepoint and
restores the empty pre-savepoint log, so the condition "savepoints
non-empty OR operations non-empty" is false again and the next `set`
records no undo Operation — undo recording does not remain active for the
remainder of the transaction.  The final state after a fourth call
`set [0] [2]` has an empty savepoint stack and an empty operation log. -/
theorem claim_C3_counterexample :
    undoStateAfter ((((Transaction.new [] true).set_savepoint.bind
      (fun t => t.set [0] [1])).bind
      (fun t => t.rollback_to_savepoint)).bind
      (fun t => t.set [0] [2])) = some ([], []) := by
  decide

/-- Claim C3 as amended: undo recording is active exactly when the
savepoint stack or the current operation log is non-empty.  It begins at
the first `set_savepoint()` and every `set` (and every `del` of a present
key) issued while the condition holds records an undo Operation; but a
`rollback_to_savepoint()` that pops the last savepoint and restores an
empty log deactivates recording, so a later `set`/`del` records nothing
until the next `set_savepoint()`. -/
theorem claim_C3_undo_recording_condition (tx : Transaction) (k : Key)
    (v : Val) (hd : tx.done = false) (hw : tx.write = true) :
    (tx.savepoints ≠ [] ∨ tx.operations ≠ [] →
      (∃ tx', tx.set k v = Except.ok tx' ∧
        tx'.operations.length = tx.operations.length + 1) ∧
      (∀ old, storeGet tx.getStore k = some old →
        ∃ tx', tx.del k = Except.ok tx' ∧
          tx'.operations.length = tx.operations.length + 1)) ∧
    (tx.savepoints = [] ∧ tx.operations = [] →
      (∃ tx', tx.set k v = Except.ok tx' ∧ tx'.operations = []) ∧
      (∃ tx', tx.del k = Except.ok tx' ∧ tx'.operations = [])) := by
  constructor
  · intro hrec
    have hcond : (!tx.savepoints.isEmpty || !tx.operations.isEmpty) = true := by
      rcases hrec with h | h
      · obtain ⟨a, l, he⟩ := List.exists_cons_of_ne_nil h
        rw [he]
        rfl
      · obtain ⟨a, l, he⟩ := List.exists_cons_of_ne_nil h
        rw [he]
        simp
    constructor
    · refine ⟨_, set_eq_of_active tx hd hw hcond k v, ?_⟩
      simp
    · intro old hget
      refine ⟨_, del_eq_of_active tx hd hw hcond k, ?_⟩
      simp [hget]
  · rintro ⟨hsv, hops⟩
    have hcond : (!tx.savepoints.isEmpty || !tx.operations.isEmpty) = false := by
      rw [hsv, hops]
      rfl
    constructor
    · refine ⟨{ tx with datastore := some (storePut tx.getStore k v) },
        by simp [Transaction.set, hd, hw, hcond], ?_⟩
      simpa using hops
    · refine ⟨{ tx with datastore := some (storeDelete tx.getStore k) },
        by simp [Transaction.del, hd, hw, hcond], ?_⟩
      simpa using hops

/-- Concrete instantiation of the amended claim C3: a transaction holding
one savepoint records an undo operation on `set`, and a fresh transaction
with no savepoint records nothing. -/
theorem claim_C3_witness :
    (Transaction.mk false true (some [([3], [4])]) (some ()) [⟨[]⟩] []).done
        = false ∧
    (Transaction.mk false true (some [([3], [4])]) (some ()) [⟨[]⟩] []).write
        = true ∧
    (((Transaction.mk false true (some [([3], [4])]) (some ())
          [⟨[]⟩] []).savepoints ≠ [] ∨
        (Transaction.mk false true (some [([3], [4])]) (some ())
          [⟨[]⟩] []).operations ≠ []) →
      (∃ tx', (Transaction.mk false true (some [([3], [4])]) (some ())
          [⟨[]⟩] []).set [3] [9] = Except.ok tx' ∧
        tx'.operations.length = (Transaction.mk false true (some [([3], [4])])
          (some ()) [⟨[]⟩] []).operations.length + 1) ∧
      (∀ old, storeGet (Transaction.mk false true (some [([3], [4])])
            (some ()) [⟨[]⟩] []).getStore [3] = some old →
        ∃ tx', (Transaction.mk false true (some [([3], [4])]) (some ())
            [⟨[]⟩] []).del [3] = Except.ok tx' ∧
          tx'.operations.length = (Transaction.mk false true
            (some [([3], [4])]) (some ()) [⟨[]⟩] []).operations.length + 1)) :=
  ⟨rfl, rfl,
    (claim_C3_undo_recording_condition
      (Transaction.mk false true (some [([3], [4])]) (some ()) [⟨[]⟩] [])
      [3] [9] rfl rfl).1⟩

end Claim3

section Claim5

open Transaction

/-- Claim C5: on an open writable transaction, `putc(k, v, chk)` and
`delc(k, chk)` succeed if and only if the current value of `k` and `chk`
are both present and equal, or both absent; in every other case they fail
with `ValNotExpectedValue` (the source returns before any write, so the
store is untouched on failure). -/
theorem claim_C5_conditional_write_cas (tx : Transaction) (k : Key) (v : Val)
    (chk : Option Val) (hd : tx.done = false) (hw : tx.write = true) :
    (((∃ w, storeGet tx.getStore k = some w ∧ chk = some w) ∨
        (storeGet tx.getStore k = none ∧ chk = none)) ↔
      ∃ tx', tx.putc k v chk = Except.ok tx') ∧
    (((∃ w, storeGet tx.getStore k = some w ∧ chk = some w) ∨
        (storeGet tx.getStore k = none ∧ chk = none)) ↔
      ∃ tx', tx.delc k chk = Except.ok tx') ∧
    (¬ ((∃ w, storeGet tx.getStore k = some w ∧ chk = some w) ∨
        (storeGet tx.getStore k = none ∧ chk = none)) →
      tx.putc k v chk = Except.error Error.ValNotExpectedValue ∧
      tx.delc k chk = Except.error Error.ValNotExpectedValue) := by
  cases hget : storeGet tx.getStore k with
  | some v0 =>
      cases chk with
      | some w0 =>
          by_cases hvw : v0 = w0
          · subst hvw
            have hputc : tx.putc k v (some v0) = tx.set k v := by
              simp [Transaction.putc, hd, hw, hget]
            have hdelc : tx.delc k (some v0) = tx.del k := by
              simp [Transaction.delc, hd, hw, hget]
            obtain ⟨txs, hoks⟩ := set_ok tx hd hw k v
            obtain ⟨txd, hokd⟩ := del_ok tx hd hw k
            refine ⟨⟨fun _ => ⟨txs, by rw [hputc]; exact hoks⟩,
                fun _ => Or.inl ⟨v0, rfl, rfl⟩⟩,
              ⟨fun _ => ⟨txd, by rw [hdelc]; exact hokd⟩,
                fun _ => Or.inl ⟨v0, rfl, rfl⟩⟩,
              fun hn => absurd (Or.inl ⟨v0, rfl, rfl⟩) hn⟩
          · have hnc : ¬ ((∃ w, some v0 = some w ∧ some w0 = some w) ∨
                ((some v0 : Option Val) = none ∧ (some w0 : Option Val) = none)) := by
              rintro (⟨w, hw1, hw2⟩ | ⟨h1, _⟩)
              · injection hw1 with hw1
                injection hw2 with hw2
                exact hvw (hw1.trans hw2.symm)
              · exact Option.noConfusion h1
            have hputc : tx.putc k v (some w0) =
                Except.error Error.ValNotExpectedValue := by
              simp [Transaction.putc, hd, hw, hget, hvw]
            have hdelc : tx.delc k (some w0) =
                Except.error Error.ValNotExpectedValue := by
              simp [Transaction.delc, hd, hw, hget, hvw]
            refine ⟨⟨fun hc => absurd hc hnc, fun ⟨tx', hok⟩ => ?_⟩,
              ⟨fun hc => absurd hc hnc, fun ⟨tx', hok⟩ => ?_⟩,
              fun _ => ⟨hputc, hdelc⟩⟩
            · rw [hputc] at hok
              exact Except.noConfusion hok
            · rw [hdelc] at hok
              exact Except.noConfusion hok
      | none =>
          have hnc : ¬ ((∃ w, some v0 = some w ∧ (none : Option Val) = some w) ∨
              ((some v0 : Option Val) = none ∧ (none : Option Val) = none)) := by
            rintro (⟨w, _, hw2⟩ | ⟨h1, _⟩)
            · exact Option.noConfusion hw2
            · exact Option.noConfusion h1
          have hputc : tx.putc k v none =
              Except.error Error.ValNotExpectedValue := by
            simp [Transaction.putc, hd, hw, hget]
          have hdelc : tx.delc k none =
              Except.error Error.ValNotExpectedValue := by
            simp [Transaction.delc, hd, hw, hget]
          refine ⟨⟨fun hc => absurd hc hnc, fun ⟨tx', hok⟩ => ?_⟩,
            ⟨fun hc => absurd hc hnc, fun ⟨tx', hok⟩ => ?_⟩,
            fun _ => ⟨hputc, hdelc⟩⟩
          · rw [hputc] at hok
            exact Except.noConfusion hok
          · rw [hdelc] at hok
            exact Except.noConfusion hok
  | none =>
      cases chk with
      | some w0 =>
          have hnc : ¬ ((∃ w, (none : Option Val) = some w ∧ some w0 = some w) ∨
              ((none : Option Val) = none ∧ (some w0 : Option Val) = none)) := by
            rintro (⟨w, hw1, _⟩ | ⟨_, h2⟩)
            · exact Option.noConfusion hw1
            · exact Option.noConfusion h2
          have hputc : tx.putc k v (some w0) =
              Except.error Error.ValNotExpectedValue := by
            simp [Transaction.putc, hd, hw, hget]
          have hdelc : tx.delc k (some w0) =
              Except.error Error.ValNotExpectedValue := by
            simp [Transaction.delc, hd, hw, hget]
          refine ⟨⟨fun hc => absurd hc hnc, fun ⟨tx', hok⟩ => ?_⟩,
            ⟨fun hc => absurd hc hnc, fun ⟨tx', hok⟩ => ?_⟩,
            fun _ => ⟨hputc, hdelc⟩⟩
          · rw [hputc] at hok
            exact Except.noConfusion hok
          · rw [hdelc] at hok
            exact Except.noConfusion hok
      | none =>
          have hputc : tx.putc k v none = tx.set k v := by
            simp [Transaction.putc, hd, hw, hget]
          have hdelc : tx.delc k none = tx.del k := by
            simp [Transaction.delc, hd, hw, hget]
          obtain ⟨txs, hoks⟩ := set_ok tx hd hw k v
          obtain ⟨txd, hokd⟩ := del_ok tx hd hw k
          refine ⟨⟨fun _ => ⟨txs, by rw [hputc]; exact hoks⟩,
              fun _ => Or.inr ⟨rfl, rfl⟩⟩,
            ⟨fun _ => ⟨txd, by rw [hdelc]; exact hokd⟩,
              fun _ => Or.inr ⟨rfl, rfl⟩⟩,
            fun hn => absurd (Or.inr ⟨rfl, rfl⟩) hn⟩

/-- Concrete instantiation of claim C5: on a store holding `[7] = [1]`, a
matching check succeeds, and the CAS condition is decided at the concrete
inputs. -/
theorem claim_C5_witness :
    (Transaction.new [([7], [1])] true).done = false ∧
    (Transaction.new [([7], [1])] true).write = true ∧
    ((((∃ w, storeGet (Transaction.new [([7], [1])] true).getStore [7] =
          some w ∧ (some [1] : Option Val) = some w) ∨
        (storeGet (Transaction.new [([7], [1])] true).getStore [7] = none ∧
          (some [1] : Option Val) = none)) ↔
      ∃ tx', (Transaction.new [([7], [1])] true).putc [7] [2] (some [1]) =
        Except.ok tx') ∧
    (((∃ w, storeGet (Transaction.new [([7], [1])] true).getStore [7] =
          some w ∧ (some [1] : Option Val) = some w) ∨
        (storeGet (Transaction.new [([7], [1])] true).getStore [7] = none ∧
          (some [1] : Option Val) = none)) ↔
      ∃ tx', (Transaction.new [([7], [1])] true).delc [7] (some [1]) =
        Except.ok tx') ∧
    (¬ ((∃ w, storeGet (Transaction.new [([7], [1])] true).getStore [7] =
          some w ∧ (some [1] : Option Val) = some w) ∨
        (storeGet (Transaction.new [([7], [1])] true).getStore [7] = none ∧
          (some [1] : Option Val) = none)) →
      (Transaction.new [([7], [1])] true).putc [7] [2] (some [1]) =
        Except.error Error.ValNotExpectedValue ∧
      (Transaction.new [([7], [1])] true).delc [7] (some [1]) =
        Except.error Error.ValNotExpectedValue)) :=
  ⟨rfl, rfl,
    claim_C5_conditional_write_cas (Transaction.new [([7], [1])] true)
      [7] [2] (some [1]) rfl rfl⟩

end Claim5

section Claim8

open Transaction

/-- Claim C8: on an open writable transaction, if key `k` is already
present with value `v`, then `put(k, v2)` fails with `KeyAlreadyExists`
without writing (the source returns before calling `set`, so the value
under `k` remains `v`); if `k` is absent, `put(k, v2)` delegates to `set`
and stores `v2`. -/
theorem claim_C8_put_insert_only (tx : Transaction) (k : Key) (v v2 : Val)
    (hd : tx.done = false) (hw : tx.write = true) :
    (storeGet tx.getStore k = some v →
      tx.put k v2 = Except.error Error.KeyAlreadyExists) ∧
    (storeGet tx.getStore k = none →
      tx.put k v2 = tx.set k v2 ∧
      ∃ tx', tx.put k v2 = Except.ok tx' ∧
        storeGet tx'.getStore k = some v2) := by
  constructor
  · intro hget
    simp [Transaction.put, hd, hw, hget]
  · intro hget
    have hput : tx.put k v2 = tx.set k v2 := by
      simp [Transaction.put, hd, hw, hget]
    refine ⟨hput, ?_⟩
    cases hcond : (!tx.savepoints.isEmpty || !tx.operations.isEmpty) with
    | true =>
        refine ⟨_, by rw [hput]; exact set_eq_of_active tx hd hw hcond k v2, ?_⟩
        show storeGet (storePut tx.getStore k v2) k = some v2
        simp [storeGet_storePut]
    | false =>
        refine ⟨{ tx with datastore := some (storePut tx.getStore k v2) },
          by rw [hput]; simp [Transaction.set, hd, hw, hcond], ?_⟩
        show storeGet (storePut tx.getStore k v2) k = some v2
        simp [storeGet_storePut]

/-- Concrete instantiation of claim C8: on a store holding `[1] = [2]`,
inserting under the occupied key `[1]` fails with `KeyAlreadyExists`, and
inserting under the free key `[5]` stores the new value. -/
theorem claim_C8_witness :
    (Transaction.new [([1], [2])] true).done = false ∧
    (Transaction.new [([1], [2])] true).write = true ∧
    (storeGet (Transaction.new [([1], [2])] true).getStore [1] = some [2] →
      (Transaction.new [([1], [2])] true).put [1] [3] =
        Except.error Error.KeyAlreadyExists) ∧
    (storeGet (Transaction.new [([1], [2])] true).getStore [5] = none →
      (Transaction.new [([1], [2])] true).put [5] [3] =
        (Transaction.new [([1], [2])] true).set [5] [3] ∧
      ∃ tx', (Transaction.new [([1], [2])] true).put [5] [3] =
        Except.ok tx' ∧ storeGet tx'.getStore [5] = some [3]) :=
  ⟨rfl, rfl,
    (claim_C8_put_insert_only (Transaction.new [([1], [2])] true)
      [1] [2] [3] rfl rfl).1,
    (claim_C8_put_insert_only (Transaction.new [([1], [2])] true)
      [5] [2] [3] rfl rfl).2⟩

end Claim8

section HandleInvariant

open Transaction

/-- A successful `set_savepoint` changes only the savepoint stack and the
operation log. -/
theorem set_savepoint_frame {tx tx' : Transaction}
    (h : tx.set_savepoint = Except.ok tx') :
    tx'.done = tx.done ∧ tx'.write = tx.write ∧
      tx'.transaction = tx.transaction ∧ tx'.datastore = tx.datastore := by
  unfold Transaction.set_savepoint at h
  split at h
  · exact absurd h (by simp)
  · split at h
    · exact absurd h (by simp)
    · injection h with h
      subst h
      simp

/-- A successful `rollback_to_savepoint` changes only the store, the
savepoint stack and the operation log. -/
theorem rollback_frame {tx tx' : Transaction}
    (h : tx.rollback_to_savepoint = Except.ok tx') :
    tx'.done = tx.done ∧ tx'.write = tx.write ∧
      tx'.transaction = tx.transaction := by
  unfold Transaction.rollback_to_savepoint at h
  split at h
  · exact absurd h (by simp)
  · split at h
    · exact absurd h (by simp)
    · split at h
      · exact absurd h (by simp)
      · injection h with h
        subst h
        simp

/-- The handle invariant: an open transaction still holds its scoped store
transaction handle. -/
def HandleInv (tx : Transaction) : Prop :=
  tx.done = false → tx.transaction = some ()

/-- Every call preserves the handle invariant: mutating calls never touch
the handle, and `commit`/`cancel` take it only while setting `done`. -/
theorem handleInv_applyOp {tx : Transaction} (h : HandleInv tx) (op : Op) :
    HandleInv (applyOp tx op) := by
  have hframe : ∀ {tx' : Transaction},
      tx'.done = tx.done → tx'.transaction = tx.transaction →
      HandleInv tx' := by
    intro tx' h1 h2 hd'
    rw [h2]
    exact h (h1 ▸ hd')
  cases op with
  | existsKey k => exact h
  | get k => exact h
  | set k v =>
      show HandleInv (match tx.set k v with
        | Except.ok tx' => tx'
        | Except.error _ => tx)
      cases hres : tx.set k v with
      | ok tx' =>
          obtain ⟨h1, _, h3, _⟩ := set_frame hres
          exact hframe h1 h3
      | error e => exact h
  | put k v =>
      show HandleInv (match tx.put k v with
        | Except.ok tx' => tx'
        | Except.error _ => tx)
      cases hres : tx.put k v with
      | ok tx' =>
          obtain ⟨h1, _, h3, _⟩ := put_frame hres
          exact hframe h1 h3
      | error e => exact h
  | putc k v chk =>
      show HandleInv (match tx.putc k v chk with
        | Except.ok tx' => tx'
        | Except.error _ => tx)
      cases hres : tx.putc k v chk with
      | ok tx' =>
          obtain ⟨h1, _, h3, _⟩ := putc_frame hres
          exact hframe h1 h3
      | error e => exact h
  | del k =>
      show HandleInv (match tx.del k with
        | Except.ok tx' => tx'
        | Except.error _ => tx)
      cases hres : tx.del k with
      | ok tx' =>
          obtain ⟨h1, _, h3, _⟩ := del_frame hres
          exact hframe h1 h3
      | error e => exact h
  | delc k chk =>
      show HandleInv (match tx.delc k chk with
        | Except.ok tx' => tx'
        | Except.error _ => tx)
      cases hres : tx.delc k chk with
      | ok tx' =>
          obtain ⟨h1, _, h3, _⟩ := delc_frame hres
          exact hframe h1 h3
      | error e => exact h
  | keys lo hi n => exact h
  | keysr lo hi n => exact h
  | scan lo hi n => exact h
  | scanr lo hi n => exact h
  | set_savepoint =>
      show HandleInv (match tx.set_savepoint with
        | Except.ok tx' => tx'
        | Except.error _ => tx)
      cases hres : tx.set_savepoint with
      | ok tx' =>
          obtain ⟨h1, _, h3, _⟩ := set_savepoint_frame hres
          exact hframe h1 h3
      | error e => exact h
  | rollback_to_savepoint =>
      show HandleInv (match tx.rollback_to_savepoint with
        | Except.ok tx' => tx'
        | Except.error _ => tx)
      cases hres : tx.rollback_to_savepoint with
      | ok tx' =>
          obtain ⟨h1, _, h3⟩ := rollback_frame hres
          exact hframe h1 h3
      | error e => exact h
  | commit r =>
      show HandleInv (tx.commit r).2
      by_cases hdone : tx.done = true
      · simpa [Transaction.commit, hdone] using h
      · have hdone' : tx.done = false := by simpa using hdone
        by_cases hwr : tx.write = true
        · intro hd2
          cases r <;> simp [Transaction.commit, hdone', hwr] at hd2
        · have hwr' : tx.write = false := by simpa using hwr
          simpa [Transaction.commit, hdone', hwr'] using h
  | cancel r =>
      show HandleInv (tx.cancel r).2
      by_cases hdone : tx.done = true
      · simpa [Transaction.cancel, hdone] using h
      · have hdone' : tx.done = false := by simpa using hdone
        intro hd2
        cases r <;> simp [Transaction.cancel, hdone'] at hd2

/-- Every call sequence preserves the handle invariant. -/
theorem handleInv_applyOps {tx : Transaction} (h : HandleInv tx)
    (ops : List Op) : HandleInv (applyOps tx ops) := by
  induction ops generalizing tx with
  | nil => exact h
  | cons op rest ih => exact ih (handleInv_applyOp h op)

end HandleInvariant

section Claim6

open Transaction

/-- Claim C6: `commit()` and `cancel()` set `done` and take the scoped
store transaction handle before the underlying store result is consulted,
so the handle is consumed exactly once: an underlying-store failure during
commit or cancel still leaves the transaction permanently done with the
handle taken (and the failure is surfaced); a second commit/cancel fails
with `TxClosed` without touching anything; and in every state reachable
from a fresh transaction, an open transaction still holds its handle, so
no call can reach a taken (`none`) handle. -/
theorem claim_C6_commit_cancel_consume_handle :
    (∀ (tx : Transaction) (r : Except String Unit),
      tx.done = false → tx.write = true →
        (tx.commit r).2.done = true ∧ (tx.commit r).2.transaction = none ∧
        ∀ e, r = Except.error e →
          (tx.commit r).1 = Except.error (Error.IndexedDbError e)) ∧
    (∀ (tx : Transaction) (r : Except String Unit),
      tx.done = false →
        (tx.cancel r).2.done = true ∧ (tx.cancel r).2.transaction = none ∧
        ∀ e, r = Except.error e →
          (tx.cancel r).1 = Except.error (Error.IndexedDbError e)) ∧
    (∀ (tx : Transaction) (r : Except String Unit),
      tx.done = true →
        tx.commit r = (Except.error Error.TxClosed, tx) ∧
        tx.cancel r = (Except.error Error.TxClosed, tx)) ∧
    (∀ (s : Store) (w : Bool) (ops : List Op),
      (applyOps (Transaction.new s w) ops).done = false →
      (applyOps (Transaction.new s w) ops).transaction = some ()) := by
  refine ⟨?_, ?_, ?_, ?_⟩
  · intro tx r hd hw
    refine ⟨?_, ?_, ?_⟩
    · cases r <;> simp [Transaction.commit, hd, hw]
    · cases r <;> simp [Transaction.commit, hd, hw]
    · intro e he
      subst he
      simp [Transaction.commit, hd, hw]
  · intro tx r hd
    refine ⟨?_, ?_, ?_⟩
    · cases r <;> simp [Transaction.cancel, hd]
    · cases r <;> simp [Transaction.cancel, hd]
    · intro e he
      subst he
      simp [Transaction.cancel, hd]
  · intro tx r hd
    exact ⟨by simp [Transaction.commit, hd], by simp [Transaction.cancel, hd]⟩
  · intro s w ops
    exact handleInv_applyOps (fun _ => rfl) ops

/-- Concrete instantiation of claim C6: a commit whose underlying store
call fails still closes the transaction and takes the handle, and after a
committing call sequence the invariant applies. -/
theorem claim_C6_witness :
    ((Transaction.new [] true).done = false ∧
      (Transaction.new [] true).write = true) ∧
    (((Transaction.new [] true).commit (Except.error "boom")).2.done = true ∧
      ((Transaction.new [] true).commit
        (Except.error "boom")).2.transaction = none ∧
      ((Transaction.new [] true).commit (Except.error "boom")).1 =
        Except.error (Error.IndexedDbError "boom")) ∧
    ((Transaction.new [] true).commit (Except.error "boom")).2.done = true ∧
    ((applyOps (Transaction.new [] true) [Op.set [0] [1]]).done = false →
      (applyOps (Transaction.new [] true)
        [Op.set [0] [1]]).transaction = some ()) := by
  obtain ⟨h1, _, _, h4⟩ := claim_C6_commit_cancel_consume_handle
  obtain ⟨ha, hb, hc⟩ :=
    h1 (Transaction.new [] true) (Except.error "boom") rfl rfl
  exact ⟨⟨rfl, rfl⟩, ⟨ha, hb, hc "boom" rfl⟩, ha,
    h4 [] true [Op.set [0] [1]]⟩

end Claim6

section Claim7

open Transaction

/-- Counterexample to claim C7: `commit()` on an open read-only
transaction returns (with `TxNotWritable`) before setting `done`, so the
transaction is still open and a subsequent `get` succeeds instead of
failing with `TxClosed`. -/
theorem claim_C7_counterexample :
    ((Transaction.new [([0], [1])] false).commit (Except.ok ())).1 =
      Except.error Error.TxNotWritable ∧
    (((Transaction.new [([0], [1])] false).commit (Except.ok ())).2).get [0] =
      Except.ok (some [1]) ∧
    (Except.ok (some [1]) : Except Error (Option Val)) ≠
      Except.error Error.TxClosed := by
  refine ⟨rfl, rfl, ?_⟩
  intro h
  exact Except.noConfusion h

/-- Claim C7 as amended: after `cancel()` returns on any open transaction,
or `commit()` returns on an open writable transaction, `done` is true
(whatever the underlying store reported); and on a transaction with
`done = true`, every operation — `exists`, `get`, `set`, `put`, `putc`,
`del`, `delc`, `keys`, `keysr`, `scan`, `scanr`, `set_savepoint`,
`rollback_to_savepoint`, and a second `commit`/`cancel` — fails with
`TxClosed`, whatever the other fields hold, because the `done` check comes
before the writability check, the savepoint check, the key-range
construction and any store access.  (A `commit()` rejected by the
writability check leaves the transaction open.) -/
theorem claim_C7_operations_after_close (tx : Transaction) (k : Key)
    (v : Val) (chk : Option Val) (lo hi : Key) (n : Nat)
    (r : Except String Unit) :
    (tx.done = false → (tx.cancel r).2.done = true) ∧
    (tx.done = false → tx.write = true → (tx.commit r).2.done = true) ∧
    (tx.done = true →
      tx.existsKey k = Except.error Error.TxClosed ∧
      tx.get k = Except.error Error.TxClosed ∧
      tx.set k v = Except.error Error.TxClosed ∧
      tx.put k v = Except.error Error.TxClosed ∧
      tx.putc k v chk = Except.error Error.TxClosed ∧
      tx.del k = Except.error Error.TxClosed ∧
      tx.delc k chk = Except.error Error.TxClosed ∧
      tx.keys lo hi n = Except.error Error.TxClosed ∧
      tx.keysr lo hi n = Except.error Error.TxClosed ∧
      tx.scan lo hi n = Except.error Error.TxClosed ∧
      tx.scanr lo hi n = Except.error Error.TxClosed ∧
      tx.set_savepoint = Except.error Error.TxClosed ∧
      tx.rollback_to_savepoint = Except.error Error.TxClosed ∧
      tx.commit r = (Except.error Error.TxClosed, tx) ∧
      tx.cancel r = (Except.error Error.TxClosed, tx)) := by
  refine ⟨?_, ?_, ?_⟩
  · intro hd
    cases r <;> simp [Transaction.cancel, hd]
  · intro hd hw
    cases r <;> simp [Transaction.commit, hd, hw]
  · intro hd
    refine ⟨?_, ?_, ?_, ?_, ?_, ?_, ?_, ?_, ?_, ?_, ?_, ?_, ?_, ?_, ?_⟩ <;>
      simp [Transaction.existsKey, Transaction.get, Transaction.set,
        Transaction.put, Transaction.putc, Transaction.del, Transaction.delc,
        Transaction.keys, Transaction.keysr, Transaction.scan,
        Transaction.scanr, Transaction.set_savepoint,
        Transaction.rollback_to_savepoint, Transaction.commit,
        Transaction.cancel, hd]

/-- Concrete instantiation of the amended claim C7: the closed read-only
transaction produced by `cancel` rejects every operation with `TxClosed`
(not `TxNotWritable`, showing the `done` check runs first). -/
theorem claim_C7_witness :
    (Transaction.new [] false).done = false ∧
    (((Transaction.new [] false).cancel (Except.ok ())).2.done = true) ∧
    ((Transaction.mk true false (some []) none [] []).done = true →
      (Transaction.mk true false (some []) none [] []).existsKey [0] =
        Except.error Error.TxClosed ∧
      (Transaction.mk true false (some []) none [] []).get [0] =
        Except.error Error.TxClosed ∧
      (Transaction.mk true false (some []) none [] []).set [0] [1] =
        Except.error Error.TxClosed ∧
      (Transaction.mk true false (some []) none [] []).put [0] [1] =
        Except.error Error.TxClosed ∧
      (Transaction.mk true false (some []) none [] []).putc [0] [1] none =
        Except.error Error.TxClosed ∧
      (Transaction.mk true false (some []) none [] []).del [0] =
        Except.error Error.TxClosed ∧
      (Transaction.mk true false (some []) none [] []).delc [0] none =
        Except.error Error.TxClosed ∧
      (Transaction.mk true false (some []) none [] []).keys [0] [1] 10 =
        Except.error Error.TxClosed ∧
      (Transaction.mk true false (some []) none [] []).keysr [0] [1] 10 =
        Except.error Error.TxClosed ∧
      (Transaction.mk true false (some []) none [] []).scan [0] [1] 10 =
        Except.error Error.TxClosed ∧
      (Transaction.mk true false (some []) none [] []).scanr [0] [1] 10 =
        Except.error Error.TxClosed ∧
      (Transaction.mk true false (some []) none [] []).set_savepoint =
        Except.error Error.TxClosed ∧
      (Transaction.mk true false (some []) none [] []).rollback_to_savepoint =
        Except.error Error.TxClosed ∧
      (Transaction.mk true false (some []) none [] []).commit (Except.ok ()) =
        (Except.error Error.TxClosed,
          Transaction.mk true false (some []) none [] []) ∧
      (Transaction.mk true false (some []) none [] []).cancel (Except.ok ()) =
        (Except.error Error.TxClosed,
          Transaction.mk true false (some []) none [] [])) :=
  ⟨rfl,
    (claim_C7_operations_after_close (Transaction.new [] false)
      [0] [1] none [0] [1] 10 (Except.ok ())).1 rfl,
    (claim_C7_operations_after_close
      (Transaction.mk true false (some []) none [] [])
      [0] [1] none [0] [1] 10 (Except.ok ())).2.2⟩

end Claim7

section ReadOnlyInvariant

open Transaction

/-- The read-only invariant: the transaction was opened with
`write = false`, its store is still the store it was opened on, and it has
never recorded a savepoint or an undo operation. -/
def ROInv (s : Store) (tx : Transaction) : Prop :=
  tx.write = false ∧ tx.datastore = some s ∧
    tx.savepoints = [] ∧ tx.operations = []

/-- Every call preserves the read-only invariant: reads change nothing,
mutating calls are rejected by the writability (or closed) guard before
touching anything, and `commit`/`cancel` change only `done` and the
handle. -/
theorem roInv_applyOp {s : Store} {tx : Transaction} (h : ROInv s tx)
    (op : Op) : ROInv s (applyOp tx op) := by
  obtain ⟨hw, hds, hsv, hops⟩ := h
  cases op with
  | existsKey k => exact ⟨hw, hds, hsv, hops⟩
  | get k => exact ⟨hw, hds, hsv, hops⟩
  | set k v =>
      have herr : tx.set k v = Except.error
          (if tx.done then Error.TxClosed else Error.TxNotWritable) := by
        cases hdone : tx.done <;> simp [Transaction.set, hdone, hw]
      show ROInv s (match tx.set k v with
        | Except.ok tx' => tx'
        | Except.error _ => tx)
      rw [herr]
      exact ⟨hw, hds, hsv, hops⟩
  | put k v =>
      have herr : tx.put k v = Except.error
          (if tx.done then Error.TxClosed else Error.TxNotWritable) := by
        cases hdone : tx.done <;> simp [Transaction.put, hdone, hw]
      show ROInv s (match tx.put k v with
        | Except.ok tx' => tx'
        | Except.error _ => tx)
      rw [herr]
      exact ⟨hw, hds, hsv, hops⟩
  | putc k v chk =>
      have herr : tx.putc k v chk = Except.error
          (if tx.done then Error.TxClosed else Error.TxNotWritable) := by
        cases hdone : tx.done <;> simp [Transaction.putc, hdone, hw]
      show ROInv s (match tx.putc k v chk with
        | Except.ok tx' => tx'
        | Except.error _ => tx)
      rw [herr]
      exact ⟨hw, hds, hsv, hops⟩
  | del k =>
      have herr : tx.del k = Except.error
          (if tx.done then Error.TxClosed else Error.TxNotWritable) := by
        cases hdone : tx.done <;> simp [Transaction.del, hdone, hw]
      show ROInv s (match tx.del k with
        | Except.ok tx' => tx'
        | Except.error _ => tx)
      rw [herr]
      exact ⟨hw, hds, hsv, hops⟩
  | delc k chk =>
      have herr : tx.delc k chk = Except.error
          (if tx.done then Error.TxClosed else Error.TxNotWritable) := by
        cases hdone : tx.done <;> simp [Transaction.delc, hdone, hw]
      show ROInv s (match tx.delc k chk with
        | Except.ok tx' => tx'
        | Except.error _ => tx)
      rw [herr]
      exact ⟨hw, hds, hsv, hops⟩
  | keys lo hi n => exact ⟨hw, hds, hsv, hops⟩
  | keysr lo hi n => exact ⟨hw, hds, hsv, hops⟩
  | scan lo hi n => exact ⟨hw, hds, hsv, hops⟩
  | scanr lo hi n => exact ⟨hw, hds, hsv, hops⟩
  | set_savepoint =>
      have herr : tx.set_savepoint = Except.error
          (if tx.done then Error.TxClosed else Error.TxNotWritable) := by
        cases hdone : tx.done <;> simp [Transaction.set_savepoint, hdone, hw]
      show ROInv s (match tx.set_savepoint with
        | Except.ok tx' => tx'
        | Except.error _ => tx)
      rw [herr]
      exact ⟨hw, hds, hsv, hops⟩
  | rollback_to_savepoint =>
      have herr : tx.rollback_to_savepoint = Except.error
          (if tx.done then Error.TxClosed else Error.TxNotWritable) := by
        cases hdone : tx.done <;>
          simp [Transaction.rollback_to_savepoint, hdone, hw]
      show ROInv s (match tx.rollback_to_savepoint with
        | Except.ok tx' => tx'
        | Except.error _ => tx)
      rw [herr]
      exact ⟨hw, hds, hsv, hops⟩
  | commit r =>
      have h2 : (tx.commit r).2 = tx := by
        cases hdone : tx.done <;> simp [Transaction.commit, hdone, hw]
      show ROInv s (tx.commit r).2
      rw [h2]
      exact ⟨hw, hds, hsv, hops⟩
  | cancel r =>
      show ROInv s (tx.cancel r).2
      cases hdone : tx.done with
      | true =>
          simp only [Transaction.cancel, hdone]
          exact ⟨hw, hds, hsv, hops⟩
      | false =>
          cases r <;> simp [Transaction.cancel, hdone] <;>
            exact ⟨hw, hds, hsv, hops⟩

/-- Every call sequence preserves the read-only invariant. -/
theorem roInv_applyOps {s : Store} {tx : Transaction} (h : ROInv s tx)
    (ops : List Op) : ROInv s (applyOps tx ops) := by
  induction ops generalizing tx with
  | nil => exact h
  | cons op rest ih => exact ih (roInv_applyOp h op)

end ReadOnlyInvariant

section Claim9

open Transaction

/-- Counterexample to claim C9: on a transaction created with
`write = false` that has been cancelled, `set` fails with `TxClosed`, not
`TxNotWritable` — the `done` check runs before the writability check, so
not every mutating call on a read-only transaction fails with
`TxNotWritable`. -/
theorem claim_C9_counterexample :
    (((Transaction.new [] false).cancel (Except.ok ())).2).set [0] [1] =
      Except.error Error.TxClosed ∧
    Error.TxClosed ≠ Error.TxNotWritable := by
  refine ⟨rfl, ?_⟩
  intro h
  exact Error.noConfusion h

/-- Claim C9 as amended: every mutating call (`set`, `put`, `putc`, `del`,
`delc`, `commit`, `set_savepoint`, `rollback_to_savepoint`) on an **open**
transaction created with `write = false` fails with `TxNotWritable` before
touching the store (a closed one fails with `TxClosed` first); and in
either case, over any call sequence, the underlying store of a read-only
transaction is never mutated and its savepoint stack and operation log
remain empty. -/
theorem claim_C9_read_only_never_mutates (tx : Transaction) (k : Key)
    (v : Val) (chk : Option Val) (r : Except String Unit) (s : Store)
    (ops : List Op) :
    (tx.done = false → tx.write = false →
      tx.set k v = Except.error Error.TxNotWritable ∧
      tx.put k v = Except.error Error.TxNotWritable ∧
      tx.putc k v chk = Except.error Error.TxNotWritable ∧
      tx.del k = Except.error Error.TxNotWritable ∧
      tx.delc k chk = Except.error Error.TxNotWritable ∧
      tx.commit r = (Except.error Error.TxNotWritable, tx) ∧
      tx.set_savepoint = Except.error Error.TxNotWritable ∧
      tx.rollback_to_savepoint = Except.error Error.TxNotWritable) ∧
    ((applyOps (Transaction.new s false) ops).getStore = s ∧
      (applyOps (Transaction.new s false) ops).savepoints = [] ∧
      (applyOps (Transaction.new s false) ops).operations = []) := by
  constructor
  · intro hd hw
    refine ⟨?_, ?_, ?_, ?_, ?_, ?_, ?_, ?_⟩ <;>
      simp [Transaction.set, Transaction.put, Transaction.putc,
        Transaction.del, Transaction.delc, Transaction.commit,
        Transaction.set_savepoint, Transaction.rollback_to_savepoint, hd, hw]
  · have h0 : ROInv s (Transaction.new s false) := ⟨rfl, rfl, rfl, rfl⟩
    obtain ⟨_, hds, hsv, hops⟩ := roInv_applyOps h0 ops
    refine ⟨?_, hsv, hops⟩
    show (applyOps (Transaction.new s false) ops).datastore.getD [] = s
    rw [hds]
    rfl

/-- Concrete instantiation of the amended claim C9: a fresh read-only
transaction over a one-entry store rejects all mutating calls with
`TxNotWritable`, and a sequence of attempted mutations leaves the store
and the undo state untouched. -/
theorem claim_C9_witness :
    (Transaction.new [([0], [1])] false).done = false ∧
    (Transaction.new [([0], [1])] false).write = false ∧
    (Transaction.new [([0], [1])] false).set [0] [2] =
      Except.error Error.TxNotWritable ∧
    (Transaction.new [([0], [1])] false).put [0] [2] =
      Except.error Error.TxNotWritable ∧
    (Transaction.new [([0], [1])] false).putc [0] [2] none =
      Except.error Error.TxNotWritable ∧
    (Transaction.new [([0], [1])] false).del [0] =
      Except.error Error.TxNotWritable ∧
    (Transaction.new [([0], [1])] false).delc [0] none =
      Except.error Error.TxNotWritable ∧
    (Transaction.new [([0], [1])] false).commit (Except.ok ()) =
      (Except.error Error.TxNotWritable, Transaction.new [([0], [1])] false) ∧
    (Transaction.new [([0], [1])] false).set_savepoint =
      Except.error Error.TxNotWritable ∧
    (Transaction.new [([0], [1])] false).rollback_to_savepoint =
      Except.error Error.TxNotWritable ∧
    (applyOps (Transaction.new [([0], [1])] false)
      [Op.set [0] [2], Op.del [0], Op.set_savepoint]).getStore =
      [([0], [1])] ∧
    (applyOps (Transaction.new [([0], [1])] false)
      [Op.set [0] [2], Op.del [0], Op.set_savepoint]).savepoints = [] ∧
    (applyOps (Transaction.new [([0], [1])] false)
      [Op.set [0] [2], Op.del [0], Op.set_savepoint]).operations = [] := by
  obtain ⟨h1, h2⟩ := claim_C9_read_only_never_mutates
    (Transaction.new [([0], [1])] false) [0] [2] none (Except.ok ())
    [([0], [1])] [Op.set [0] [2], Op.del [0], Op.set_savepoint]
  obtain ⟨a1, a2, a3, a4, a5, a6, a7, a8⟩ := h1 rfl rfl
  exact ⟨rfl, rfl, a1, a2, a3, a4, a5, a6, a7, a8, h2.1, h2.2.1, h2.2.2⟩

end Claim9

section Claim10

open Transaction

/-- Tells whether the byte conversion in `kv.rs` recognizes the value as a
byte source: true exactly for the two dynamic types it tests for,
`ArrayBuffer` and `Uint8Array`. -/
def isByteSource : JsValue → Bool
  | JsValue.arrayBuffer _ => true
  | JsValue.uint8Array _ => true
  | JsValue.other => false

/-- Claim C10: every stored JavaScript value that is neither an
`ArrayBuffer` nor a `Uint8Array` converts to the empty byte vector, so a
`get` whose raw store result holds such a value returns `Ok(Some([]))` —
`Some` of the empty value, not `None` and not an error. -/
theorem claim_C10_convert_other_is_empty (v : JsValue)
    (h : isByteSource v = false) :
    v.convert = [] ∧
    getRawResult false (some v) = Except.ok (some []) := by
  cases v with
  | arrayBuffer b => exact absurd h (by simp [isByteSource])
  | uint8Array b => exact absurd h (by simp [isByteSource])
  | other => exact ⟨rfl, rfl⟩

/-- Concrete instantiation of claim C10 at a non-binary JavaScript
value. -/
theorem claim_C10_witness :
    isByteSource JsValue.other = false ∧
    (JsValue.other.convert = [] ∧
      getRawResult false (some JsValue.other) = Except.ok (some [])) :=
  ⟨rfl, claim_C10_convert_other_is_empty JsValue.other rfl⟩

end Claim10

end Indxdb
